import Mathlib

/-!
Shallow embedding of the Delaunay triangulation core of the GPP_Research
repository (files src/Project/DataTypes.h and
src/Project/DelaunayTriangulation.cpp), together with theorems settling the
frozen claims about its specification.

Modelling conventions:
* C++ int coordinates become Lean Int; vertex indices (always non-negative in
  the source) become Nat.
* The member state of the DelaunayTriangulation class (m_Vertices, m_Triangles)
  becomes an explicit TriState record threaded through the member functions.
* The IEEE single-precision computations (the slope and intercept arithmetic of
  IsInsideCircumcircle, and the atan2f-based sort key of AddPoint) cannot be
  expressed over Nat and Int; they are abstracted as a FloatOracle parameter.
  Every float value is a rational number, so the true float routines are one
  concrete instance of the oracle, and every theorem quantified over the oracle
  covers the source behavior.  All integer arithmetic surrounding the oracle is
  translated exactly.
* The helper members AddVertex, AddTriangle and RemoveTriangle are declared in
  DelaunayTriangulation.h, which is not part of the available sources; they are
  modelled from the spec as noted on their definitions.
-/

/-- 2D integer point, from struct Vector2 in src/Project/DataTypes.h. -/
structure Vector2 where
  x : Int
  y : Int
deriving DecidableEq, Repr, Inhabited

/-- Vector2 operator- from DataTypes.h. -/
def Vector2.sub (a other : Vector2) : Vector2 :=
  ⟨a.x - other.x, a.y - other.y⟩

/-- Vector2 operator== from DataTypes.h: componentwise equality. -/
def Vector2.beq (a other : Vector2) : Bool :=
  (a.x == other.x) && (a.y == other.y)

/-- Vector2.DistanceSqr from DataTypes.h, with the source precedence kept:
the final minus y is outside the second product. -/
def Vector2.DistanceSqr (a other : Vector2) : Int :=
  (other.x - a.x) * (other.x - a.x) + (other.y - a.y) * other.y - a.y

/-- Triangle of three vertex indices, from struct Triangle in DataTypes.h.
The C++ value initialization Triangle makes all three indices zero, matching
the derived Inhabited default. -/
structure Triangle where
  first : Nat
  second : Nat
  third : Nat
deriving DecidableEq, Repr, Inhabited

/-- Edge of two endpoints, from struct Edge in DataTypes.h. -/
structure Edge where
  p0 : Vector2
  p1 : Vector2
deriving DecidableEq, Repr

/-- Edge operator== from DataTypes.h, translated verbatim. -/
def Edge.beq (e other : Edge) : Bool :=
  (Vector2.beq e.p0 other.p0 || Vector2.beq e.p0 other.p1) &&
  (Vector2.beq e.p1 other.p0 || Vector2.beq e.p1 other.p1)

/-- Edge operator< from DataTypes.h: compares the DistanceSqr values. -/
def Edge.lt (e other : Edge) : Bool :=
  decide (e.p0.DistanceSqr e.p1 < other.p0.DistanceSqr other.p1)

/-- True squared Euclidean distance.  This definition follows the words of the
spec (and of claim C10), not the source; it exists only to be compared with
Vector2.DistanceSqr. -/
def specEuclideanSqr (a b : Vector2) : Int :=
  (b.x - a.x) ^ 2 + (b.y - a.y) ^ 2

/-- The unordered-pair equality of edges that the spec describes: two edges
reference the same two endpoints regardless of order.  Spec-side notion, to be
compared with Edge.beq. -/
def specSameEndpoints (e f : Edge) : Prop :=
  (e.p0 = f.p0 ∧ e.p1 = f.p1) ∨ (e.p0 = f.p1 ∧ e.p1 = f.p0)

instance (e f : Edge) : Decidable (specSameEndpoints e f) := by
  unfold specSameEndpoints
  infer_instance

/-- Member state of the DelaunayTriangulation class: m_Vertices and
m_Triangles. -/
structure TriState where
  verts : List Vector2
  tris : List Triangle
deriving DecidableEq, Repr

/-- Abstraction of the IEEE single-precision computations of the source.
circumcenter stands for lines 166 to 179 of DelaunayTriangulation.cpp (the
perpendicular bisector slopes, intercepts and their intersection, truncated to
int), and angleKey stands for the atan2f sort key of lines 107 to 110 of
AddPoint, including the shift of negative angles.  Floats are rationals, so
the actual float routines are one instance of this structure. -/
structure FloatOracle where
  circumcenter : Vector2 → Vector2 → Vector2 → Int × Int
  angleKey : Vector2 → ℚ

/-- Indexing into m_Vertices.  The source indexes std::vector directly; all
indices used are in range (claim C6), so the default value is never read in a
real run. -/
def getV (verts : List Vector2) (i : Nat) : Vector2 :=
  verts.getD i ⟨0, 0⟩

/-- Modelled from the spec: AddVertex is declared in the missing header
DelaunayTriangulation.h.  Per the spec the vertex storage is an ordered,
append-only sequence and vertices are referenced by their integer index, so
AddVertex appends and returns the index of the new vertex. -/
def addVertex (s : TriState) (v : Vector2) : TriState × Nat :=
  (⟨s.verts ++ [v], s.tris⟩, s.verts.length)

/-- Modelled from the spec: AddTriangle is declared in the missing header
DelaunayTriangulation.h.  It appends a triangle built from the three given
vertex indices to the triangle storage. -/
def addTriangle (s : TriState) (a b c : Nat) : TriState :=
  ⟨s.verts, s.tris ++ [⟨a, b, c⟩]⟩

/-- Modelled from the spec: RemoveTriangle is declared in the missing header
DelaunayTriangulation.h.  Per the spec the triangle storage is a
remove-by-swap collection: removal by position swaps the last element into the
removed slot and pops the back. -/
def removeTriangle (ts : List Triangle) (index : Nat) : List Triangle :=
  (ts.set index (ts.getLast?.getD default)).dropLast

namespace DelaunayTriangulation

/-- DelaunayTriangulation::Clear, lines 150 to 154: both containers are
cleared. -/
def Clear (_s : TriState) : TriState :=
  ⟨[], []⟩

/-- DelaunayTriangulation::StartTriangulation, lines 30 to 39: the three super
triangle vertices have hard-coded positions and the screenSize parameter is
not used; then the super triangle (0,1,2) is created. -/
def StartTriangulation (_screenSize : Int) (s : TriState) : TriState :=
  let s1 := (addVertex s ⟨0, 0⟩).1
  let s2 := (addVertex s1 ⟨-500, 2500⟩).1
  let s3 := (addVertex s2 ⟨2500, -500⟩).1
  addTriangle s3 0 1 2

/-- DelaunayTriangulation::IsInsideCircumcircle, lines 156 to 189.  The float
center computation is the oracle; the surrounding integer arithmetic (squared
radius, squared distance to the test vertex, strict comparison) is translated
exactly. -/
def IsInsideCircumcircle (fo : FloatOracle) (verts : List Vector2)
    (triangle : Triangle) (indice : Nat) : Bool :=
  let v1 := getV verts triangle.second
  let vTest := getV verts indice
  let c := fo.circumcenter (getV verts triangle.first) v1 (getV verts triangle.third)
  let x := c.1
  let y := c.2
  let r := (x - v1.x) * (x - v1.x) + (y - v1.y) * (y - v1.y)
  let rPoint := (x - vTest.x) * (x - vTest.x) + (y - vTest.y) * (y - vTest.y)
  decide (rPoint < r)

/-- Lines 58 to 93 of AddPoint: push the three vertex indices of an
intersecting triangle onto the intersecting polygon.  When the polygon is
nonempty, each index is first looked up in the polygon as it was before any of
the three pushes (the source checks all three against originalSize), and
pushed only if absent; when the polygon is empty all three are pushed. -/
def insertPoly (polygon : List Nat) (t : Triangle) : List Nat :=
  if 0 < polygon.length then
    let hasFirst := polygon.contains t.first
    let hasSecond := polygon.contains t.second
    let hasThird := polygon.contains t.third
    polygon ++
      ((if !hasFirst then [t.first] else []) ++
       ((if !hasSecond then [t.second] else []) ++
        (if !hasThird then [t.third] else [])))
  else
    polygon ++ [t.first, t.second, t.third]

/-- Lines 50 to 97 of AddPoint: the reverse for loop over the triangle
storage.  The fuel argument is the loop index plus one: fuel i+1 examines the
triangle in slot i of the current storage, removes it by swap when the test
vertex lies inside its circumcircle (collecting its vertices into the
polygon), and continues with slot i-1. -/
def cavityLoop (inC : Triangle → Bool) :
    Nat → List Triangle → List Nat → List Triangle × List Nat
  | 0, ts, polygon => (ts, polygon)
  | i + 1, ts, polygon =>
    let t := ts.getD i default
    if inC t then
      cavityLoop inC i (removeTriangle ts i) (insertPoly polygon t)
    else
      cavityLoop inC i ts polygon

/-- The whole cavity scan of AddPoint: run the reverse loop over the full
triangle storage, starting from an empty intersecting polygon. -/
def cavityScan (fo : FloatOracle) (verts : List Vector2) (tris : List Triangle)
    (newIndice : Nat) : List Triangle × List Nat :=
  cavityLoop (fun t => IsInsideCircumcircle fo verts t newIndice) tris.length tris []

/-- Lines 100 to 113 of AddPoint: std::sort of the intersecting polygon with
the comparator that orders two indices by the angle key of vertex position
minus new point position.  std::sort with a strict comparator guarantees
exactly a permutation of the input that is sorted with respect to the induced
total preorder; insertionSort with the complementary non-strict relation is
such a permutation and is structurally computable. -/
def sortPolygon (key : Nat → ℚ) (polygon : List Nat) : List Nat :=
  polygon.insertionSort fun a b => key a ≤ key b

/-- Lines 115 to 123 of AddPoint: for every position i of the sorted polygon,
create the triangle of the polygon vertex at i, the polygon vertex at
(i+1) mod size, and the new vertex. -/
def fanLoop (polygon : List Nat) (newIndice : Nat) : List Triangle :=
  (List.range polygon.length).map fun i =>
    ⟨polygon.getD i 0, polygon.getD ((i + 1) % polygon.length) 0, newIndice⟩

/-- DelaunayTriangulation::AddPoint, lines 41 to 124: append the point as a
vertex, scan and remove the circumcircle-violating triangles while collecting
the cavity polygon, sort the polygon by angle, and append the fan triangles. -/
def AddPoint (fo : FloatOracle) (s : TriState) (point : Vector2) : TriState :=
  let av := addVertex s point
  let newIndice := av.2
  let scan := cavityScan fo av.1.verts av.1.tris newIndice
  let sorted := sortPolygon (fun i => fo.angleKey (Vector2.sub (getV av.1.verts i) point)) scan.2
  ⟨av.1.verts, scan.1 ++ fanLoop sorted newIndice⟩

/-- Lines 134 to 146 of FinishTriangulation: the inner for loop over the
indices 0, 1 and 2 with its three equality tests and early break amounts to
this nine-way disjunction. -/
def touchesSuper (t : Triangle) : Bool :=
  (t.first == 0 || t.second == 0 || t.third == 0) ||
  ((t.first == 1 || t.second == 1 || t.third == 1) ||
   (t.first == 2 || t.second == 2 || t.third == 2))

/-- Lines 129 to 147 of FinishTriangulation: the reverse for loop that removes
every triangle touching a super triangle vertex, with the same fuel convention
as cavityLoop. -/
def finishLoop : Nat → List Triangle → List Triangle
  | 0, ts => ts
  | i + 1, ts =>
    let t := ts.getD i default
    if touchesSuper t then
      finishLoop i (removeTriangle ts i)
    else
      finishLoop i ts

/-- DelaunayTriangulation::FinishTriangulation, lines 126 to 148. -/
def FinishTriangulation (s : TriState) : TriState :=
  ⟨s.verts, finishLoop s.tris.length s.tris⟩

/-- DelaunayTriangulation::Triangulate, lines 11 to 28.  The source iterates
over DungeonRoom values and inserts each room center; DungeonRoom is an
external collaborator outside the triangulation core, so the model receives
the list of center points directly and inserts them in order. -/
def Triangulate (fo : FloatOracle) (s : TriState) (screenSize : Int)
    (points : List Vector2) : TriState :=
  FinishTriangulation (points.foldl (AddPoint fo) (StartTriangulation screenSize (Clear s)))

/-- A triangle references three pairwise-distinct vertex indices. -/
def distinctTri (t : Triangle) : Bool :=
  (t.first != t.second) && ((t.second != t.third) && (t.first != t.third))

/-- A triangle references only valid indices into a vertex sequence of the
given length. -/
def validTri (n : Nat) (t : Triangle) : Bool :=
  decide (t.first < n) && (decide (t.second < n) && decide (t.third < n))

/-- The data-model invariant of the spec: every stored triangle references
three distinct, valid vertex indices. -/
def triInv (s : TriState) : Bool :=
  s.tris.all fun t => distinctTri t && validTri s.verts.length t

/-- The sort key used inside AddPoint for a given state and new point: the
angle key of vertex position minus new point position (lines 105 to 110). -/
def addPointKey (fo : FloatOracle) (s : TriState) (point : Vector2) : Nat → ℚ :=
  fun i => fo.angleKey (Vector2.sub (getV (s.verts ++ [point]) i) point)

/-- The cavity scan performed by AddPoint on a given state and new point. -/
def addPointScan (fo : FloatOracle) (s : TriState) (point : Vector2) :
    List Triangle × List Nat :=
  cavityScan fo (s.verts ++ [point]) s.tris s.verts.length

/-- The sorted intersecting polygon of an AddPoint call. -/
def addPointSorted (fo : FloatOracle) (s : TriState) (point : Vector2) : List Nat :=
  sortPolygon (addPointKey fo s point) (addPointScan fo s point).2

/-- A concrete FloatOracle used by witnesses: the circumcenter is always the
origin and the angle key is always zero. -/
def oracle0 : FloatOracle :=
  ⟨fun _ _ _ => (0, 0), fun _ => 0⟩

/-- The member state right after seeding: the three super-triangle vertices
and the super triangle.  Used by witnesses. -/
def seedState : TriState :=
  ⟨[⟨0, 0⟩, ⟨-500, 2500⟩, ⟨2500, -500⟩], [⟨0, 1, 2⟩]⟩

end DelaunayTriangulation

open DelaunayTriangulation

theorem Vector2.beq_iff_eq (a b : Vector2) : Vector2.beq a b = true ↔ a = b := by
  cases a
  cases b
  simp [Vector2.beq, Vector2.mk.injEq]

/-- C1, counterexample: the claim asserts that for every boundsHint the second
seeded vertex is (-boundsHint, boundsHint*5).  At boundsHint = 1 the code
seeds (-500, 2500), not (-1, 5). -/
theorem c1_seed_scaling_fails :
    ¬ ((StartTriangulation 1 (Clear ⟨[], []⟩)).verts.getD 1 ⟨0, 0⟩ = ⟨-1, 1 * 5⟩) := by
  decide

/-- C1 (amended): seeding appends exactly the three fixed super-triangle
vertices (0,0), (-500,2500), (2500,-500) whatever the bounds hint is (the
parameter is ignored; the positions match the claimed formulas only for
boundsHint = 500), and creates exactly one triangle from indices (0,1,2). -/
theorem c1_seed_constant (screenSize : Int) (s : TriState) :
    (StartTriangulation screenSize (Clear s)).verts =
      [⟨0, 0⟩, ⟨-500, 2500⟩, ⟨2500, -500⟩] ∧
    (StartTriangulation screenSize (Clear s)).tris = [⟨0, 1, 2⟩] :=
  ⟨rfl, rfl⟩

/-- C8: Triangulate first clears the member state, so its result does not
depend on the state the instance is in; in particular running it twice with
the same bounds hint and points, on the state left by the first run or on any
fresh state, produces identical vertex and triangle sequences. -/
theorem c8_deterministic (fo : FloatOracle) (s1 s2 : TriState) (screenSize : Int)
    (points : List Vector2) :
    Triangulate fo s1 screenSize points = Triangulate fo s2 screenSize points ∧
    Triangulate fo (Triangulate fo s1 screenSize points) screenSize points =
      Triangulate fo s1 screenSize points :=
  ⟨rfl, rfl⟩

/-- C10: DistanceSqr computes (b.x-a.x)^2 + (b.y-a.y)*b.y - a.y, which differs
from the squared Euclidean distance, and Edge operator< orders edges by this
quantity, which differs from ordering by squared edge length. -/
theorem c10_distanceSqr_formula :
    (∀ a b : Vector2,
      Vector2.DistanceSqr a b = (b.x - a.x) ^ 2 + (b.y - a.y) * b.y - a.y) ∧
    (∃ a b : Vector2, Vector2.DistanceSqr a b ≠ specEuclideanSqr a b) ∧
    (∀ e f : Edge,
      Edge.lt e f = decide (Vector2.DistanceSqr e.p0 e.p1 < Vector2.DistanceSqr f.p0 f.p1)) ∧
    (∃ e f : Edge,
      Edge.lt e f ≠ decide (specEuclideanSqr e.p0 e.p1 < specEuclideanSqr f.p0 f.p1)) := by
  refine ⟨fun a b => ?_, ⟨⟨0, 1⟩, ⟨0, 1⟩, by decide⟩, fun e f => rfl,
    ⟨⟨⟨0, 100⟩, ⟨10, 100⟩⟩, ⟨⟨0, 0⟩, ⟨2, 0⟩⟩, by decide⟩⟩
  unfold Vector2.DistanceSqr
  ring

theorem removeTriangle_length (ts : List Triangle) (i : Nat) :
    (removeTriangle ts i).length = ts.length - 1 := by
  simp [removeTriangle]

theorem mem_removeTriangle {ts : List Triangle} {i : Nat} {t : Triangle}
    (h : t ∈ removeTriangle ts i) : t ∈ ts := by
  cases ts with
  | nil => simp [removeTriangle] at h
  | cons a l =>
    have h1 := List.dropLast_subset _ h
    rcases List.mem_or_eq_of_mem_set h1 with h2 | h2
    · exact h2
    · rw [h2, List.getLast?_eq_getLast _ (by simp), Option.getD_some]
      exact List.getLast_mem _

theorem drop_removeTriangle (ts : List Triangle) (i : Nat) (hi : i < ts.length) :
    (removeTriangle ts i).drop i =
      List.take (ts.length - 1 - i) (ts.getLast?.getD default :: ts.drop (i + 1)) := by
  unfold removeTriangle
  rw [List.dropLast_eq_take, List.length_set, List.drop_take, List.drop_set,
    if_neg (lt_irrefl i), Nat.sub_self, List.drop_eq_getElem_cons hi, List.set_cons_zero]

theorem getLastD_mem_drop (ts : List Triangle) (i : Nat) (hi : i + 1 < ts.length) :
    ts.getLast?.getD default ∈ ts.drop (i + 1) := by
  have hne : ts.drop (i + 1) ≠ [] := by
    intro h
    have h2 := congrArg List.length h
    simp only [List.length_drop, List.length_nil] at h2
    omega
  have h3 : (ts.drop (i + 1)).getLast? = ts.getLast? := by
    rw [List.getLast?_drop, if_neg (by omega)]
  rw [← h3, List.getLast?_eq_getLast _ hne, Option.getD_some]
  exact List.getLast_mem hne

theorem finishLoop_subset : ∀ (i : Nat) (ts : List Triangle),
    ∀ t ∈ DelaunayTriangulation.finishLoop i ts, t ∈ ts := by
  intro i
  induction i with
  | zero =>
    intro ts t ht
    simpa [DelaunayTriangulation.finishLoop] using ht
  | succ i ih =>
    intro ts t ht
    simp only [DelaunayTriangulation.finishLoop] at ht
    by_cases hc : DelaunayTriangulation.touchesSuper (ts.getD i default) = true
    · rw [if_pos hc] at ht
      exact mem_removeTriangle (ih _ t ht)
    · rw [if_neg hc] at ht
      exact ih _ t ht

theorem finishLoop_good : ∀ (i : Nat) (ts : List Triangle), i ≤ ts.length →
    (∀ t ∈ ts.drop i, DelaunayTriangulation.touchesSuper t = false) →
    ∀ t ∈ DelaunayTriangulation.finishLoop i ts,
      DelaunayTriangulation.touchesSuper t = false := by
  intro i
  induction i with
  | zero =>
    intro ts _ hgood t ht
    simp only [DelaunayTriangulation.finishLoop] at ht
    exact hgood t (by simpa using ht)
  | succ i ih =>
    intro ts hi hgood t ht
    simp only [DelaunayTriangulation.finishLoop] at ht
    by_cases hc : DelaunayTriangulation.touchesSuper (ts.getD i default) = true
    · rw [if_pos hc] at ht
      refine ih (removeTriangle ts i) (by rw [removeTriangle_length]; omega) ?_ t ht
      intro u hu
      rw [drop_removeTriangle ts i (by omega)] at hu
      rcases Nat.lt_or_ge (i + 1) ts.length with hlen | hlen
      · have hu2 := List.take_subset _ _ hu
        rcases List.mem_cons.mp hu2 with h2 | h2
        · rw [h2]
          exact hgood _ (getLastD_mem_drop ts i hlen)
        · exact hgood _ h2
      · have hz : ts.length - 1 - i = 0 := by omega
        rw [hz] at hu
        simp at hu
    · rw [if_neg hc] at ht
      refine ih ts (by omega) ?_ t ht
      intro u hu
      rw [List.drop_eq_getElem_cons (show i < ts.length by omega)] at hu
      rcases List.mem_cons.mp hu with h2 | h2
      · rw [h2]
        rw [List.getD_eq_getElem _ _ (show i < ts.length by omega)] at hc
        simpa using hc
      · exact hgood _ h2

/-- C2: for every input (oracle, prior instance state, bounds hint and point
sequence), no triangle in the final triangle set of Triangulate references
vertex index 0, 1 or 2: FinishTriangulation removes every such triangle and
none survives. -/
theorem c2_no_super_triangle_vertex (fo : FloatOracle)
    (s : TriState) (screenSize : Int) (points : List Vector2) :
    (DelaunayTriangulation.Triangulate fo s screenSize points).tris.all
      (fun t => !DelaunayTriangulation.touchesSuper t) = true := by
  rw [List.all_eq_true]
  intro t ht
  have h1 : DelaunayTriangulation.touchesSuper t = false := by
    refine finishLoop_good _ _ le_rfl ?_ t ht
    intro u hu
    rw [List.drop_length] at hu
    simp at hu
  rw [h1]
  rfl

theorem contains_eq_mem_decide (l : List Nat) (x : Nat) :
    l.contains x = decide (x ∈ l) := by
  show List.elem x l = decide (x ∈ l)
  exact List.elem_eq_mem x l

theorem insertPoly_eq_filter (polygon : List Nat) (t : Triangle) :
    DelaunayTriangulation.insertPoly polygon t =
      polygon ++
        List.filter (fun x => !polygon.contains x) [t.first, t.second, t.third] := by
  unfold DelaunayTriangulation.insertPoly
  by_cases hp : 0 < polygon.length
  · rw [if_pos hp]
    cases hF : polygon.contains t.first <;> cases hS : polygon.contains t.second <;>
      cases hT : polygon.contains t.third <;>
      simp only [contains_eq_mem_decide, decide_eq_false_iff_not,
        decide_eq_true_eq] at hF hS hT <;>
      simp [List.filter_cons, hF, hS, hT]
  · rw [if_neg hp]
    have hpe : polygon = [] := by
      cases polygon
      · rfl
      · simp at hp
    subst hpe
    simp [List.filter_cons, contains_eq_mem_decide]

theorem mem_insertPoly {polygon : List Nat} {t : Triangle} {x : Nat}
    (h : x ∈ DelaunayTriangulation.insertPoly polygon t) :
    x ∈ polygon ∨ x = t.first ∨ x = t.second ∨ x = t.third := by
  rw [insertPoly_eq_filter] at h
  rcases List.mem_append.mp h with h1 | h1
  · exact Or.inl h1
  · have h2 := (List.mem_filter.mp h1).1
    simp only [List.mem_cons, List.not_mem_nil, or_false] at h2
    exact Or.inr h2

theorem nodup_insertPoly {polygon : List Nat} {t : Triangle}
    (hn : polygon.Nodup) (hd : DelaunayTriangulation.distinctTri t = true) :
    (DelaunayTriangulation.insertPoly polygon t).Nodup := by
  rw [insertPoly_eq_filter, List.nodup_append]
  simp only [DelaunayTriangulation.distinctTri, Bool.and_eq_true, bne_iff_ne,
    ne_eq] at hd
  refine ⟨hn, ?_, ?_⟩
  · refine List.Nodup.filter _ ?_
    simp only [List.nodup_cons, List.mem_cons, List.not_mem_nil, or_false,
      List.nodup_nil, and_true, not_or]
    tauto
  · intro x hx hx2
    have h2 := (List.mem_filter.mp hx2).2
    rw [contains_eq_mem_decide] at h2
    simp only [Bool.not_eq_true', decide_eq_false_iff_not] at h2
    exact h2 hx

theorem insertPoly_length_lower (polygon : List Nat) (t : Triangle)
    (h : polygon = [] ∨ 3 ≤ polygon.length) :
    (DelaunayTriangulation.insertPoly polygon t) = [] ∨
      3 ≤ (DelaunayTriangulation.insertPoly polygon t).length := by
  rcases h with h | h
  · subst h
    right
    rfl
  · right
    rw [insertPoly_eq_filter, List.length_append]
    omega

theorem cavityLoop_tris_subset (inC : Triangle → Bool) :
    ∀ (i : Nat) (ts : List Triangle) (polygon : List Nat), i ≤ ts.length →
      ∀ t ∈ (DelaunayTriangulation.cavityLoop inC i ts polygon).1, t ∈ ts := by
  intro i
  induction i with
  | zero =>
    intro ts polygon _ t ht
    simpa [DelaunayTriangulation.cavityLoop] using ht
  | succ i ih =>
    intro ts polygon hi t ht
    simp only [DelaunayTriangulation.cavityLoop] at ht
    by_cases hc : inC (ts.getD i default) = true
    · rw [if_pos hc] at ht
      refine mem_removeTriangle (ih _ _ ?_ t ht)
      rw [removeTriangle_length]
      omega
    · rw [if_neg hc] at ht
      exact ih _ _ (by omega) t ht

theorem cavityLoop_poly_mem (inC : Triangle → Bool) :
    ∀ (i : Nat) (ts : List Triangle) (polygon : List Nat), i ≤ ts.length →
      ∀ x ∈ (DelaunayTriangulation.cavityLoop inC i ts polygon).2,
        x ∈ polygon ∨
          ∃ t, t ∈ ts ∧ (x = t.first ∨ x = t.second ∨ x = t.third) := by
  intro i
  induction i with
  | zero =>
    intro ts polygon _ x hx
    exact Or.inl (by simpa [DelaunayTriangulation.cavityLoop] using hx)
  | succ i ih =>
    intro ts polygon hi x hx
    simp only [DelaunayTriangulation.cavityLoop] at hx
    by_cases hc : inC (ts.getD i default) = true
    · rw [if_pos hc] at hx
      have h1 := ih _ _ (by rw [removeTriangle_length]; omega) x hx
      rcases h1 with h1 | ⟨t, ht, hv⟩
      · rcases mem_insertPoly h1 with h2 | h2
        · exact Or.inl h2
        · refine Or.inr ⟨ts.getD i default, ?_, h2⟩
          rw [List.getD_eq_getElem _ _ (show i < ts.length by omega)]
          exact List.getElem_mem _
      · exact Or.inr ⟨t, mem_removeTriangle ht, hv⟩
    · rw [if_neg hc] at hx
      exact ih _ _ (by omega) x hx

theorem cavityLoop_poly_nodup (inC : Triangle → Bool) :
    ∀ (i : Nat) (ts : List Triangle) (polygon : List Nat), i ≤ ts.length →
      (∀ t ∈ ts, DelaunayTriangulation.distinctTri t = true) → polygon.Nodup →
      (DelaunayTriangulation.cavityLoop inC i ts polygon).2.Nodup := by
  intro i
  induction i with
  | zero =>
    intro ts polygon _ _ hn
    simpa [DelaunayTriangulation.cavityLoop] using hn
  | succ i ih =>
    intro ts polygon hi hd hn
    simp only [DelaunayTriangulation.cavityLoop]
    by_cases hc : inC (ts.getD i default) = true
    · rw [if_pos hc]
      refine ih _ _ (by rw [removeTriangle_length]; omega)
        (fun t ht => hd t (mem_removeTriangle ht)) ?_
      refine nodup_insertPoly hn (hd _ ?_)
      rw [List.getD_eq_getElem _ _ (show i < ts.length by omega)]
      exact List.getElem_mem _
    · rw [if_neg hc]
      exact ih _ _ (by omega) hd hn

theorem cavityLoop_poly_length (inC : Triangle → Bool) :
    ∀ (i : Nat) (ts : List Triangle) (polygon : List Nat),
      (polygon = [] ∨ 3 ≤ polygon.length) →
      ((DelaunayTriangulation.cavityLoop inC i ts polygon).2 = [] ∨
        3 ≤ (DelaunayTriangulation.cavityLoop inC i ts polygon).2.length) := by
  intro i
  induction i with
  | zero =>
    intro ts polygon h
    simpa [DelaunayTriangulation.cavityLoop] using h
  | succ i ih =>
    intro ts polygon h
    simp only [DelaunayTriangulation.cavityLoop]
    by_cases hc : inC (ts.getD i default) = true
    · rw [if_pos hc]
      exact ih _ _ (insertPoly_length_lower polygon _ h)
    · rw [if_neg hc]
      exact ih _ _ h

/-- C5: during a single AddPoint call, provided every stored triangle
references three pairwise-distinct vertex indices, the intersecting polygon
never contains the same vertex index twice: the scan keeps it duplicate-free
(the polygon only grows, so the final Nodup covers every intermediate state),
and each insertion step preserves freedom from duplicates. -/
theorem c5_polygon_no_duplicates (fo : FloatOracle) (s : TriState) (point : Vector2)
    (h : ∀ t ∈ s.tris, DelaunayTriangulation.distinctTri t = true) :
    ((DelaunayTriangulation.addPointScan fo s point).2).Nodup ∧
    (∀ (polygon : List Nat) (t : Triangle), polygon.Nodup →
      DelaunayTriangulation.distinctTri t = true →
      (DelaunayTriangulation.insertPoly polygon t).Nodup) := by
  constructor
  · exact cavityLoop_poly_nodup _ _ _ _ le_rfl h List.nodup_nil
  · intro polygon t hn hd
    exact nodup_insertPoly hn hd

/-- Witness for C5 at a concrete state: the seeded state with point (100,100)
and the origin-center oracle. -/
theorem c5_witness :
    (∀ t ∈ DelaunayTriangulation.seedState.tris,
      DelaunayTriangulation.distinctTri t = true) ∧
    ((DelaunayTriangulation.addPointScan DelaunayTriangulation.oracle0
      DelaunayTriangulation.seedState ⟨100, 100⟩).2).Nodup :=
  ⟨by decide,
   (c5_polygon_no_duplicates DelaunayTriangulation.oracle0
     DelaunayTriangulation.seedState ⟨100, 100⟩ (by decide)).1⟩

theorem sortPolygon_perm (key : Nat → ℚ) (polygon : List Nat) :
    (DelaunayTriangulation.sortPolygon key polygon).Perm polygon :=
  List.perm_insertionSort _ _

theorem sortPolygon_sorted (key : Nat → ℚ) (polygon : List Nat) :
    List.Pairwise (fun a b => key a ≤ key b)
      (DelaunayTriangulation.sortPolygon key polygon) := by
  haveI h1 : IsTotal Nat fun a b => key a ≤ key b := ⟨fun a b => le_total _ _⟩
  haveI h2 : IsTrans Nat fun a b => key a ≤ key b :=
    ⟨fun a b c hab hbc => le_trans hab hbc⟩
  exact List.sorted_insertionSort _ _

theorem fanLoop_length (polygon : List Nat) (newIndice : Nat) :
    (DelaunayTriangulation.fanLoop polygon newIndice).length = polygon.length := by
  simp [DelaunayTriangulation.fanLoop]

theorem mem_fanLoop {polygon : List Nat} {newIndice : Nat} {t : Triangle}
    (h : t ∈ DelaunayTriangulation.fanLoop polygon newIndice) :
    ∃ i, i < polygon.length ∧
      t = ⟨polygon.getD i 0, polygon.getD ((i + 1) % polygon.length) 0, newIndice⟩ := by
  simp only [DelaunayTriangulation.fanLoop, List.mem_map, List.mem_range] at h
  obtain ⟨i, hi, ht⟩ := h
  exact ⟨i, hi, ht.symm⟩

theorem getD_mem_of_lt {l : List Nat} {i : Nat} (h : i < l.length) :
    l.getD i 0 ∈ l := by
  rw [List.getD_eq_getElem _ _ h]
  exact List.getElem_mem h

theorem nodup_getD_ne {l : List Nat} (hn : l.Nodup) {i j : Nat}
    (hi : i < l.length) (hj : j < l.length) (hij : i ≠ j) :
    l.getD i 0 ≠ l.getD j 0 := by
  rw [List.getD_eq_getElem _ _ hi, List.getD_eq_getElem _ _ hj]
  intro he
  exact hij ((List.Nodup.getElem_inj_iff hn).mp he)

theorem AddPoint_eq (fo : FloatOracle) (s : TriState) (point : Vector2) :
    DelaunayTriangulation.AddPoint fo s point =
      ⟨s.verts ++ [point],
       (DelaunayTriangulation.addPointScan fo s point).1 ++
         DelaunayTriangulation.fanLoop
           (DelaunayTriangulation.addPointSorted fo s point) s.verts.length⟩ := rfl

theorem addPointScan_tris_subset (fo : FloatOracle) (s : TriState) (point : Vector2) :
    ∀ t ∈ (DelaunayTriangulation.addPointScan fo s point).1, t ∈ s.tris :=
  cavityLoop_tris_subset _ _ _ _ le_rfl

theorem addPointScan_poly_mem (fo : FloatOracle) (s : TriState) (point : Vector2) :
    ∀ x ∈ (DelaunayTriangulation.addPointScan fo s point).2,
      x ∈ ([] : List Nat) ∨
        ∃ t, t ∈ s.tris ∧ (x = t.first ∨ x = t.second ∨ x = t.third) :=
  cavityLoop_poly_mem _ _ _ _ le_rfl

theorem addPointScan_poly_nodup (fo : FloatOracle) (s : TriState) (point : Vector2)
    (hd : ∀ t ∈ s.tris, DelaunayTriangulation.distinctTri t = true) :
    (DelaunayTriangulation.addPointScan fo s point).2.Nodup :=
  cavityLoop_poly_nodup _ _ _ _ le_rfl hd List.nodup_nil

theorem addPointScan_poly_length (fo : FloatOracle) (s : TriState) (point : Vector2) :
    (DelaunayTriangulation.addPointScan fo s point).2 = [] ∨
      3 ≤ (DelaunayTriangulation.addPointScan fo s point).2.length :=
  cavityLoop_poly_length _ _ _ _ (Or.inl rfl)

theorem validTri_mono {n m : Nat} {t : Triangle}
    (h : DelaunayTriangulation.validTri n t = true) (hnm : n ≤ m) :
    DelaunayTriangulation.validTri m t = true := by
  simp only [DelaunayTriangulation.validTri, Bool.and_eq_true,
    decide_eq_true_eq] at h ⊢
  omega

theorem addPoint_triInv (fo : FloatOracle) (s : TriState) (point : Vector2)
    (h : DelaunayTriangulation.triInv s = true) :
    DelaunayTriangulation.triInv (DelaunayTriangulation.AddPoint fo s point) = true := by
  rw [DelaunayTriangulation.triInv, List.all_eq_true] at h
  rw [AddPoint_eq, DelaunayTriangulation.triInv, List.all_eq_true]
  intro t ht
  have hd : ∀ u ∈ s.tris, DelaunayTriangulation.distinctTri u = true := by
    intro u hu
    have h3 := h u hu
    rw [Bool.and_eq_true] at h3
    exact h3.1
  rcases List.mem_append.mp ht with h1 | h1
  · have h2 : t ∈ s.tris := cavityLoop_tris_subset _ _ _ _ le_rfl t h1
    have h3 := h t h2
    rw [Bool.and_eq_true] at h3 ⊢
    refine ⟨h3.1, validTri_mono h3.2 ?_⟩
    simp
  · obtain ⟨i, hi, hteq⟩ := mem_fanLoop h1
    have hperm := sortPolygon_perm (DelaunayTriangulation.addPointKey fo s point)
      (DelaunayTriangulation.addPointScan fo s point).2
    have hnodup : (DelaunayTriangulation.addPointSorted fo s point).Nodup :=
      (List.Perm.nodup_iff hperm).mpr (addPointScan_poly_nodup fo s point hd)
    have hlen3 : (DelaunayTriangulation.addPointSorted fo s point).length =
        ((DelaunayTriangulation.addPointScan fo s point).2).length :=
      hperm.length_eq
    have hlen : 3 ≤ (DelaunayTriangulation.addPointSorted fo s point).length := by
      rcases addPointScan_poly_length fo s point with he | h3
      · have h0 : (DelaunayTriangulation.addPointScan fo s point).2.length = 0 := by
          rw [he]
          rfl
        omega
      · omega
    have hqlt : ∀ x ∈ DelaunayTriangulation.addPointSorted fo s point,
        x < s.verts.length := by
      intro x hx
      have hx2 : x ∈ (DelaunayTriangulation.addPointScan fo s point).2 :=
        hperm.mem_iff.mp hx
      rcases addPointScan_poly_mem fo s point x hx2 with h2 | ⟨u, hu, hv⟩
      · simp at h2
      · have h3 := h u hu
        rw [Bool.and_eq_true] at h3
        have h3 := h3.2
        simp only [DelaunayTriangulation.validTri, Bool.and_eq_true,
          decide_eq_true_eq] at h3
        rcases hv with rfl | rfl | rfl
        · exact h3.1
        · exact h3.2.1
        · exact h3.2.2
    have hmod : (i + 1) % (DelaunayTriangulation.addPointSorted fo s point).length <
        (DelaunayTriangulation.addPointSorted fo s point).length :=
      Nat.mod_lt _ (by omega)
    have hne : i ≠ (i + 1) % (DelaunayTriangulation.addPointSorted fo s point).length := by
      rcases Nat.lt_or_ge (i + 1)
          (DelaunayTriangulation.addPointSorted fo s point).length with hlt | hge
      · rw [Nat.mod_eq_of_lt hlt]
        omega
      · have he : i + 1 = (DelaunayTriangulation.addPointSorted fo s point).length := by
          omega
        rw [he, Nat.mod_self]
        omega
    have hx1 := hqlt _ (getD_mem_of_lt hi)
    have hx2 := hqlt _ (getD_mem_of_lt hmod)
    have hx12 := nodup_getD_ne hnodup hi hmod hne
    rw [hteq]
    simp only [DelaunayTriangulation.distinctTri, DelaunayTriangulation.validTri,
      Bool.and_eq_true, bne_iff_ne, ne_eq, decide_eq_true_eq,
      List.length_append, List.length_singleton]
    refine ⟨⟨?_, ?_, ?_⟩, ?_, ?_, ?_⟩ <;> omega

theorem foldl_addPoint_triInv (fo : FloatOracle) (points : List Vector2) :
    ∀ s : TriState, DelaunayTriangulation.triInv s = true →
      DelaunayTriangulation.triInv
        (points.foldl (DelaunayTriangulation.AddPoint fo) s) = true := by
  induction points with
  | nil =>
    intro s h
    simpa using h
  | cons p ps ih =>
    intro s h
    rw [List.foldl_cons]
    exact ih _ (addPoint_triInv fo s p h)

theorem seed_triInv (screenSize : Int) (s : TriState) :
    DelaunayTriangulation.triInv
      (DelaunayTriangulation.StartTriangulation screenSize
        (DelaunayTriangulation.Clear s)) = true := rfl

theorem finish_triInv (s : TriState)
    (h : DelaunayTriangulation.triInv s = true) :
    DelaunayTriangulation.triInv (DelaunayTriangulation.FinishTriangulation s) = true := by
  rw [DelaunayTriangulation.triInv, List.all_eq_true] at h ⊢
  intro t ht
  exact h t (finishLoop_subset _ _ t ht)

/-- C6: after seeding, at every step of a Triangulate run and in its final
state, every stored triangle references three pairwise-distinct vertex
indices, each a valid index into the vertex sequence: the invariant holds
after the seed (take 0), after each prefix of point insertions (any k), and
after finalization. -/
theorem c6_distinct_valid_indices (fo : FloatOracle) (s : TriState)
    (screenSize : Int) (points : List Vector2) (k : Nat) :
    DelaunayTriangulation.triInv
      ((points.take k).foldl (DelaunayTriangulation.AddPoint fo)
        (DelaunayTriangulation.StartTriangulation screenSize
          (DelaunayTriangulation.Clear s))) = true ∧
    DelaunayTriangulation.triInv
      (DelaunayTriangulation.Triangulate fo s screenSize points) = true := by
  constructor
  · exact foldl_addPoint_triInv fo _ _ (seed_triInv screenSize s)
  · exact finish_triInv _ (foldl_addPoint_triInv fo _ _ (seed_triInv screenSize s))

/-- C4: within a single AddPoint call, after the boundary polygon has been
collected, the polygon is sorted ascending by the angle key of (vertex
position minus new point position) -- the float atan2 with its plus two pi
normalization being the angleKey component of the oracle -- and then, for a
polygon of n vertices, exactly n fan triangles are created, the i-th being
(boundary i, boundary (i+1) mod n, newIndice). -/
theorem c4_sorted_fan (fo : FloatOracle) (s : TriState) (point : Vector2) :
    List.Pairwise
      (fun a b => DelaunayTriangulation.addPointKey fo s point a ≤
        DelaunayTriangulation.addPointKey fo s point b)
      (DelaunayTriangulation.addPointSorted fo s point) ∧
    (DelaunayTriangulation.AddPoint fo s point).tris =
      (DelaunayTriangulation.addPointScan fo s point).1 ++
        DelaunayTriangulation.fanLoop
          (DelaunayTriangulation.addPointSorted fo s point) s.verts.length ∧
    (DelaunayTriangulation.fanLoop
      (DelaunayTriangulation.addPointSorted fo s point) s.verts.length).length =
      (DelaunayTriangulation.addPointSorted fo s point).length ∧
    ∀ i, i < (DelaunayTriangulation.addPointSorted fo s point).length →
      (DelaunayTriangulation.fanLoop
        (DelaunayTriangulation.addPointSorted fo s point) s.verts.length).getD i default =
        ⟨(DelaunayTriangulation.addPointSorted fo s point).getD i 0,
         (DelaunayTriangulation.addPointSorted fo s point).getD
           ((i + 1) % (DelaunayTriangulation.addPointSorted fo s point).length) 0,
         s.verts.length⟩ := by
  refine ⟨sortPolygon_sorted _ _, rfl, fanLoop_length _ _, ?_⟩
  intro i hi
  rw [List.getD_eq_getElem _ _ (by rw [fanLoop_length]; exact hi)]
  simp [DelaunayTriangulation.fanLoop]

/-- Witness for C4 at the seeded state, the origin-center oracle and point
(100,100): the sorted polygon is nonempty, and the theorem yields the shape of
the first fan triangle. -/
theorem c4_witness :
    0 < (DelaunayTriangulation.addPointSorted DelaunayTriangulation.oracle0
      DelaunayTriangulation.seedState ⟨100, 100⟩).length ∧
    (DelaunayTriangulation.fanLoop
      (DelaunayTriangulation.addPointSorted DelaunayTriangulation.oracle0
        DelaunayTriangulation.seedState ⟨100, 100⟩)
      DelaunayTriangulation.seedState.verts.length).getD 0 default =
      ⟨(DelaunayTriangulation.addPointSorted DelaunayTriangulation.oracle0
          DelaunayTriangulation.seedState ⟨100, 100⟩).getD 0 0,
       (DelaunayTriangulation.addPointSorted DelaunayTriangulation.oracle0
          DelaunayTriangulation.seedState ⟨100, 100⟩).getD
         ((0 + 1) % (DelaunayTriangulation.addPointSorted DelaunayTriangulation.oracle0
            DelaunayTriangulation.seedState ⟨100, 100⟩).length) 0,
       DelaunayTriangulation.seedState.verts.length⟩ :=
  ⟨by decide,
   (c4_sorted_fan DelaunayTriangulation.oracle0 DelaunayTriangulation.seedState
     ⟨100, 100⟩).2.2.2 0 (by decide)⟩

theorem touchesSuper_of_first {t : Triangle}
    (h : t.first = 0 ∨ t.first = 1 ∨ t.first = 2) :
    DelaunayTriangulation.touchesSuper t = true := by
  unfold DelaunayTriangulation.touchesSuper
  rcases h with h | h | h <;> rw [h] <;> simp

/-- C7: with zero or one input points Triangulate returns an empty triangle
set: with no points only the super triangle exists and is removed by the
finalization, and with one point every triangle in storage references at
least one reserved index 0, 1 or 2 and is removed as well.  The model is
total, so no exception can occur. -/
theorem c7_small_input_empty (fo : FloatOracle) (s : TriState) (screenSize : Int)
    (points : List Vector2) (h : points.length ≤ 1) :
    (DelaunayTriangulation.Triangulate fo s screenSize points).tris = [] := by
  rcases points with _ | ⟨p, _ | ⟨q, rest⟩⟩
  · rfl
  · have hall : ∀ t ∈ (DelaunayTriangulation.AddPoint fo
        (DelaunayTriangulation.StartTriangulation screenSize
          (DelaunayTriangulation.Clear s)) p).tris,
        DelaunayTriangulation.touchesSuper t = true := by
      intro t ht
      rw [AddPoint_eq] at ht
      rcases List.mem_append.mp ht with h1 | h1
      · have h2 := addPointScan_tris_subset fo
          (DelaunayTriangulation.StartTriangulation screenSize
            (DelaunayTriangulation.Clear s)) p t h1
        have h3 : t ∈ [(⟨0, 1, 2⟩ : Triangle)] := h2
        rw [List.mem_singleton] at h3
        rw [h3]
        rfl
      · obtain ⟨i, hi, hteq⟩ := mem_fanLoop h1
        have hperm := sortPolygon_perm
          (DelaunayTriangulation.addPointKey fo
            (DelaunayTriangulation.StartTriangulation screenSize
              (DelaunayTriangulation.Clear s)) p)
          (DelaunayTriangulation.addPointScan fo
            (DelaunayTriangulation.StartTriangulation screenSize
              (DelaunayTriangulation.Clear s)) p).2
        have hx : (DelaunayTriangulation.addPointSorted fo
            (DelaunayTriangulation.StartTriangulation screenSize
              (DelaunayTriangulation.Clear s)) p).getD i 0 ∈
            (DelaunayTriangulation.addPointScan fo
              (DelaunayTriangulation.StartTriangulation screenSize
                (DelaunayTriangulation.Clear s)) p).2 :=
          hperm.mem_iff.mp (getD_mem_of_lt hi)
        rcases addPointScan_poly_mem fo
            (DelaunayTriangulation.StartTriangulation screenSize
              (DelaunayTriangulation.Clear s)) p _ hx with h2 | ⟨u, hu, hv⟩
        · simp at h2
        · have hu2 : u ∈ [(⟨0, 1, 2⟩ : Triangle)] := hu
          rw [List.mem_singleton] at hu2
          subst hu2
          rw [hteq]
          refine touchesSuper_of_first ?_
          rcases hv with he | he | he
          · exact Or.inl he
          · exact Or.inr (Or.inl he)
          · exact Or.inr (Or.inr he)
    rw [List.eq_nil_iff_forall_not_mem]
    intro t ht
    have h1 := finishLoop_subset _ _ t ht
    have h2 : DelaunayTriangulation.touchesSuper t = false := by
      refine finishLoop_good _ _ le_rfl ?_ t ht
      intro u hu
      rw [List.drop_length] at hu
      simp at hu
    have h3 := (hall t h1).symm.trans h2
    exact Bool.noConfusion h3
  · simp only [List.length_cons] at h
    omega

/-- Witness for C7: one concrete point with the origin-center oracle gives an
empty output triangle list. -/
theorem c7_witness :
    ([(⟨5, 5⟩ : Vector2)].length ≤ 1) ∧
    (DelaunayTriangulation.Triangulate DelaunayTriangulation.oracle0 ⟨[], []⟩ 500
      [⟨5, 5⟩]).tris = [] :=
  ⟨by decide,
   c7_small_input_empty DelaunayTriangulation.oracle0 ⟨[], []⟩ 500 [⟨5, 5⟩] (by decide)⟩

theorem specSameEndpoints_symm {e f : Edge} (h : specSameEndpoints e f) :
    specSameEndpoints f e := by
  rcases h with ⟨h1, h2⟩ | ⟨h1, h2⟩
  · exact Or.inl ⟨h1.symm, h2.symm⟩
  · exact Or.inr ⟨h2.symm, h1.symm⟩

theorem edge_beq_iff_of_ne {e f : Edge} (he : e.p0 ≠ e.p1) (_hf : f.p0 ≠ f.p1) :
    Edge.beq e f = true ↔ specSameEndpoints e f := by
  unfold Edge.beq specSameEndpoints
  simp only [Bool.and_eq_true, Bool.or_eq_true, Vector2.beq_iff_eq]
  constructor
  · rintro ⟨h1 | h1, h2 | h2⟩
    · exact absurd (h1.trans h2.symm) he
    · exact Or.inl ⟨h1, h2⟩
    · exact Or.inr ⟨h1, h2⟩
    · exact absurd (h1.trans h2.symm) he
  · rintro (⟨h1, h2⟩ | ⟨h1, h2⟩)
    · exact ⟨Or.inl h1, Or.inr h2⟩
    · exact ⟨Or.inr h1, Or.inl h2⟩

/-- C9, counterexample: with e1 = ((0,0),(0,0)) and e2 = ((0,0),(1,0)) the
source Edge equality returns true although the two edges do not reference the
same two endpoints, and it is not symmetric: comparing the same two edges in
the other order returns false. -/
theorem c9_edge_eq_fails :
    Edge.beq ⟨⟨0, 0⟩, ⟨0, 0⟩⟩ ⟨⟨0, 0⟩, ⟨1, 0⟩⟩ = true ∧
    ¬ specSameEndpoints ⟨⟨0, 0⟩, ⟨0, 0⟩⟩ ⟨⟨0, 0⟩, ⟨1, 0⟩⟩ ∧
    Edge.beq ⟨⟨0, 0⟩, ⟨1, 0⟩⟩ ⟨⟨0, 0⟩, ⟨0, 0⟩⟩ = false := by
  decide

/-- C9 (amended): for edges whose two endpoints are distinct, Edge operator==
returns true exactly when the two edges reference the same two endpoints
regardless of order, and on such edges the equality is symmetric; when an edge
has coincident endpoints both properties can fail. -/
theorem c9_edge_eq_distinct (e f : Edge) (he : e.p0 ≠ e.p1) (hf : f.p0 ≠ f.p1) :
    (Edge.beq e f = true ↔ specSameEndpoints e f) ∧
    Edge.beq e f = Edge.beq f e := by
  refine ⟨edge_beq_iff_of_ne he hf, ?_⟩
  cases hb : Edge.beq f e
  · cases hb2 : Edge.beq e f
    · rfl
    · have h1 := (edge_beq_iff_of_ne he hf).mp hb2
      have h2 := (edge_beq_iff_of_ne hf he).mpr (specSameEndpoints_symm h1)
      rw [hb] at h2
      exact h2.symm
  · exact (edge_beq_iff_of_ne he hf).mpr
      (specSameEndpoints_symm ((edge_beq_iff_of_ne hf he).mp hb))

/-- Witness for C9 (amended) at two concrete edges with distinct endpoints. -/
theorem c9_witness :
    ((⟨⟨0, 0⟩, ⟨1, 1⟩⟩ : Edge).p0 ≠ (⟨⟨0, 0⟩, ⟨1, 1⟩⟩ : Edge).p1) ∧
    ((⟨⟨1, 1⟩, ⟨0, 0⟩⟩ : Edge).p0 ≠ (⟨⟨1, 1⟩, ⟨0, 0⟩⟩ : Edge).p1) ∧
    ((Edge.beq ⟨⟨0, 0⟩, ⟨1, 1⟩⟩ ⟨⟨1, 1⟩, ⟨0, 0⟩⟩ = true ↔
      specSameEndpoints ⟨⟨0, 0⟩, ⟨1, 1⟩⟩ ⟨⟨1, 1⟩, ⟨0, 0⟩⟩) ∧
     Edge.beq ⟨⟨0, 0⟩, ⟨1, 1⟩⟩ ⟨⟨1, 1⟩, ⟨0, 0⟩⟩ =
       Edge.beq ⟨⟨1, 1⟩, ⟨0, 0⟩⟩ ⟨⟨0, 0⟩, ⟨1, 1⟩⟩) :=
  ⟨by decide, by decide,
   c9_edge_eq_distinct ⟨⟨0, 0⟩, ⟨1, 1⟩⟩ ⟨⟨1, 1⟩, ⟨0, 0⟩⟩ (by decide) (by decide)⟩
